import Mathlib

/-!
Verification development for the household-calendar repository.

The definitions below are a shallow embedding of the TypeScript sources:

* `src/convex/ai.ts` — the `processMessage` action (the extraction engine),
* `src/convex/eventValidation.ts` — `validateEvent` and the duration cap,
* `src/convex/events.ts` — the `createEvent`, `batchCreateEvents` and
  `deleteRecurringEvents` mutations over the Convex document store,
* `src/app/calendar/chat-panel.tsx` — `clampWeeks` and the week-count bounds.

Modelling conventions, used throughout:

* JavaScript numbers that the program only ever uses at integral values are
  modelled as `Int`; a value of `Option Int` with `none` models `NaN`
  (arithmetic propagates `none`, comparisons with `none` are `false`, exactly
  as `NaN` behaves in JS).  Fractional inputs are outside the model.
* JavaScript strings are modelled as Lean `String`s, and the string
  operations the source uses (`toLowerCase`, `trim`, `split`, `Number`,
  regular-expression word tests) are re-implemented character by character on
  ASCII data so that every definition evaluates inside the kernel.  `Number`
  on a string that is not a decimal integer (after trimming) is modelled as
  `NaN` (`none`).
* `Date.UTC` and the UTC accessors of `Date` are implemented with the
  standard civil-from-days / days-from-civil algorithms on the proleptic
  Gregorian calendar, which is exactly the calendar ECMAScript prescribes;
  `Date.UTC` maps the years 0–99 to 1900–1999 and normalises out-of-range
  month and day arguments, and both behaviours are reproduced.
* Exceptions are modelled with `Except String`; a thrown JS error is carried
  as its message string.
-/

/-! ## JavaScript primitives: characters, strings, numbers -/

def msPerMinute : Int := 60000

def msPerHour : Int := 3600000

def msPerDay : Int := 86400000

/-- ASCII lower-casing of one character, as `String.prototype.toLowerCase`
acts on the ASCII range (the only range the repository ever feeds it). -/
def jsCharLower (c : Char) : Char :=
  if 'A' ≤ c ∧ c ≤ 'Z' then Char.ofNat (c.toNat + 32) else c

/-- `s.toLowerCase()` on ASCII data. -/
def jsToLower (s : String) : String := ⟨s.data.map jsCharLower⟩

/-- Whitespace characters recognised when modelling `Number(string)` and
`String.prototype.trim` (ASCII whitespace; JS also trims some Unicode
space characters, which never occur in this repository's data). -/
def jsIsSpace (c : Char) : Bool :=
  c = ' ' ∨ c = '\t' ∨ c = '\n' ∨ c = '\r'

/-- `s.trim()` on ASCII data. -/
def jsTrim (s : String) : String :=
  ⟨(s.data.dropWhile jsIsSpace).reverse.dropWhile jsIsSpace |>.reverse⟩

/-- Splitting a character list at every occurrence of a separator character;
`String.prototype.split` with a one-character separator. -/
def splitChars (sep : Char) : List Char → List (List Char)
  | [] => [[]]
  | c :: cs =>
    let rest := splitChars sep cs
    if c = sep then [] :: rest
    else
      match rest with
      | [] => [[c]]
      | r :: rs => (c :: r) :: rs

/-- `s.split("-")`. -/
def jsSplitDash (s : String) : List String :=
  (splitChars '-' s.data).map (fun l => ⟨l⟩)

def digitVal (c : Char) : Option Nat :=
  if '0' ≤ c ∧ c ≤ '9' then some (c.toNat - '0'.toNat) else none

/-- Value of a non-empty all-digit character list, `none` as soon as a
non-digit appears. -/
def digitsToNat : List Char → Option Nat
  | [] => none
  | c :: cs =>
    match digitVal c, digitsToNat cs with
    | some d, some r => some (d * 10 ^ cs.length + r)
    | some d, none => if cs = [] then some d else none
    | none, _ => none

/-- `Number(s)` restricted to the shapes this repository produces: after
trimming, the empty string is `0` and an optionally signed decimal integer
is its value.  Every other shape (fractions, exponents, hex, words) is
modelled as `NaN`, i.e. `none`. -/
def toNumber (s : String) : Option Int :=
  match (jsTrim s).data with
  | [] => some 0
  | '-' :: cs => (digitsToNat cs).map (fun n => -(n : Int))
  | '+' :: cs => (digitsToNat cs).map (fun n => (n : Int))
  | cs => (digitsToNat cs).map (fun n => (n : Int))

/-- Word characters of the regular-expression class `\w`. -/
def isWordChar (c : Char) : Bool :=
  ('a' ≤ c ∧ c ≤ 'z') ∨ ('A' ≤ c ∧ c ≤ 'Z') ∨ ('0' ≤ c ∧ c ≤ '9') ∨ c = '_'

/-- Maximal runs of word characters of a character list (the tokens that a
`\b`-delimited regular expression can match in full). -/
def wordTokens : List Char → List (List Char)
  | [] => []
  | c :: cs =>
    let rest := wordTokens cs
    if isWordChar c then
      match cs with
      | [] => [[c]]
      | c2 :: _ =>
        if isWordChar c2 then
          match rest with
          | [] => [[c]]
          | r :: rs => (c :: r) :: rs
        else [c] :: rest
    else rest

/-- The test `/\bw\b/.test(s)` for a word `w` that consists of word
characters only: some maximal word-character run of `s` is exactly `w`. -/
def hasWord (s w : String) : Bool :=
  (wordTokens s.data).contains w.data

/-! ## JavaScript dates

Days-from-civil and civil-from-days are the standard calendrical algorithms
for the proleptic Gregorian calendar used by ECMAScript time values. -/

/-- `Date.UTC` interprets year arguments 0..99 as 1900..1999. -/
def jsUtcYear (y : Int) : Int := if 0 ≤ y ∧ y ≤ 99 then y + 1900 else y

/-- Days from the Unix epoch 1970-01-01 to the civil date `y-m-d` with
1-based month `m`.  Out-of-range months are normalised into the year and
out-of-range days linearly into the month, exactly as `Date.UTC` does. -/
def daysFromCivil (y m d : Int) : Int :=
  let y1 := y + (m - 1).fdiv 12
  let m1 := (m - 1).emod 12 + 1
  let y2 := if m1 ≤ 2 then y1 - 1 else y1
  let era := y2.fdiv 400
  let yoe := y2 - era * 400
  let mp := (m1 + 9).emod 12
  let doy := (153 * mp + 2).fdiv 5 + d - 1
  let doe := yoe * 365 + yoe.fdiv 4 - yoe.fdiv 100 + doy
  era * 146097 + doe - 719468

/-- Inverse of `daysFromCivil`: the civil date (year, 1-based month, day) of
a day count from the Unix epoch. -/
def civilFromDays (z : Int) : Int × Int × Int :=
  let z1 := z + 719468
  let era := z1.fdiv 146097
  let doe := z1 - era * 146097
  let yoe := (doe - doe.fdiv 1460 + doe.fdiv 36524 - doe.fdiv 146096).fdiv 365
  let y := yoe + era * 400
  let doy := doe - (365 * yoe + yoe.fdiv 4 - yoe.fdiv 100)
  let mp := (5 * doy + 2).fdiv 153
  let d := doy - (153 * mp + 2).fdiv 5 + 1
  let m := mp + (if mp < 10 then 3 else -9)
  (y + (if m ≤ 2 then 1 else 0), m, d)

/-- `Date.UTC(year, monthIndex, day, hour, minute)` in milliseconds, for
non-`NaN` arguments.  `monthIndex` is 0-based, exactly as in JS. -/
def dateUTC (year monthIndex day hour minute : Int) : Int :=
  daysFromCivil (jsUtcYear year) (monthIndex + 1) day * msPerDay
    + hour * msPerHour + minute * msPerMinute

/-- `new Date(ms).getUTCDay()`: 0 = Sunday.  The epoch fell on a Thursday. -/
def getUTCDayOfMs (ms : Int) : Int := (ms.fdiv msPerDay + 4).emod 7

/-- The (year, month, day) UTC accessors of `new Date(ms)`. -/
def civilOfMs (ms : Int) : Int × Int × Int := civilFromDays (ms.fdiv msPerDay)

def getUTCHoursOfMs (ms : Int) : Int := (ms.fdiv msPerHour).emod 24

def getUTCMinutesOfMs (ms : Int) : Int := (ms.fdiv msPerMinute).emod 60

/-- `NaN`-propagating addition on JS numbers. -/
def jsAdd : Option Int → Option Int → Option Int
  | some a, some b => some (a + b)
  | _, _ => none

/-- `NaN`-propagating subtraction on JS numbers. -/
def jsSub : Option Int → Option Int → Option Int
  | some a, some b => some (a - b)
  | _, _ => none

/-- `Date.UTC` on possibly-`NaN` arguments. -/
def jsDateUTC : Option Int → Option Int → Option Int → Option Int → Option Int → Option Int
  | some y, some mi, some d, some h, some mn => some (dateUTC y mi d h mn)
  | _, _, _, _, _ => none

/-- The strict comparison `a < b` on JS numbers: false whenever either side
is `NaN`. -/
def jsLtB : Option Int → Option Int → Bool
  | some a, some b => a < b
  | _, _ => false

/-- The comparator-driven "keep the pair in order" test used when modelling
`Array.prototype.sort` with the comparator `(a, b) => a - b`: a stable sort
keeps `a` before `b` unless the comparator is positive.  A `NaN` comparator
value is not positive, so `NaN` never forces a swap. -/
def jsLeB : Option Int → Option Int → Bool
  | some a, some b => a ≤ b
  | _, _ => true

-- Sanity checks of the date model against known timestamps.
example : daysFromCivil 1970 1 1 = 0 := by decide
example : dateUTC 2024 0 1 0 0 = 1704067200000 := by decide
example : getUTCDayOfMs (dateUTC 2024 0 1 0 0) = 1 := by decide
example : civilOfMs 1704067200000 = (2024, 1, 1) := by decide
example : dateUTC 2024 1 31 0 0 = dateUTC 2024 2 2 0 0 := by decide
example : toNumber "2024" = some 2024 := by decide
example : toNumber "" = some 0 := by decide
example : toNumber "03" = some 3 := by decide
example : toNumber "-5" = some (-5) := by decide
example : toNumber "1.5" = none := by decide
example : hasWord "see you tomorrow!" "tomorrow" = true := by decide
example : hasWord "tomorrowland trip" "tomorrow" = false := by decide
example : jsToLower "AbC" = "abc" := by decide
example : jsTrim "  hi " = "hi" := by decide
example : jsSplitDash "2024-03-04" = ["2024", "03", "04"] := by decide

/-! ## Data model of `src/convex/ai.ts` -/

/-- The `EventProposal` record returned to the frontend.  The source field
`end` is spelled `end_` because `end` is a Lean keyword; `start`/`end_` are
JS numbers, so they carry `Option Int` with `none` for `NaN`. -/
structure EventProposal where
  title : String
  start : Option Int
  end_ : Option Int
  location : Option String := none
  attendees : Option (List String) := none
  description : Option String := none
  memberIds : Option (List String) := none
deriving DecidableEq, Repr

/-- The `AIResponse` union: `type` is one of the three tag strings. -/
structure AIResponse where
  type : String
  message : String
  proposal : Option EventProposal := none
  proposals : Option (List EventProposal) := none
  recurrenceId : Option String := none
deriving DecidableEq, Repr

def RECURRING_WEEKS : Int := 8

/-- One entry of the `householdMembers` argument. -/
structure Member where
  id : String
  name : String
deriving DecidableEq, Repr

/-- The argument object of the `processMessage` action.  The conversation
history is only forwarded to the remote model, whose outcome is a separate
oracle input below, so its entries are carried but never inspected. -/
structure ProcessArgs where
  message : String
  conversationHistory : Option (List (String × String)) := none
  timezoneOffset : Option Int := none
  householdMembers : Option (List Member) := none
  currentUserName : Option String := none
deriving DecidableEq, Repr

/-- The object `JSON.parse(item.arguments)` is cast to in the source. -/
structure ParsedArgs where
  title : String
  date : String
  startHour : Int
  startMinute : Int
  durationMinutes : Int
  location : Option String := none
  attendees : Option (List String) := none
  description : Option String := none
  recurringDays : Option (List Int) := none
  recurringWeeks : Option Int := none
  assignedMembers : Option (List String) := none
deriving DecidableEq, Repr

/-- One item of the remote response's `output` array.  A `functionCall`
carries the result of `JSON.parse` on its `arguments` string: `Except.ok`
for a payload of the expected shape, `Except.error` for a malformed one
(in the source both a JSON syntax error and a later field-access failure
throw inside the same `try`, landing in the same `catch`). -/
inductive OutputItem where
  | functionCall (name : String) (arguments : Except String ParsedArgs)
  | otherItem
deriving Repr

structure RemoteResponse where
  output : List OutputItem
  output_text : Option String := none
deriving Repr

/-- Outcome of the single outbound call `client.responses.create`: either it
threw (network error, timeout, API error — carried as the error message
string) or it returned a response object. -/
inductive RemoteOutcome where
  | threw (msg : String)
  | returned (resp : RemoteResponse)
deriving Repr

/-- Ambient inputs of one invocation: the `OPENAI_API_KEY` environment
variable, the two `Date.now()` reads (line 70 and the recurrence-id read)
and the `Math.random()` suffix of the recurrence id. -/
structure Env where
  apiKey : Option String
  nowMs : Int
  ridNowMs : Int
  randSuffix : String
deriving DecidableEq, Repr

/-! ## Helper functions of `src/convex/ai.ts` -/

def getUserLocalNow (nowMs tz : Int) : Int := nowMs - tz * msPerMinute

/-- `String(n).padStart(2, "0")`. -/
def padStart2 (s : String) : String := if s.length < 2 then "0" ++ s else s

/-- `formatYmdFromLocalDate`: `YYYY-MM-DD` from the UTC accessors. -/
def formatYmdFromLocalDate (ms : Int) : String :=
  match civilOfMs ms with
  | (y, m, d) => toString y ++ "-" ++ padStart2 (toString m) ++ "-" ++ padStart2 (toString d)

/-- `inferRelativeDateFromMessage`: the `\btomorrow\b`, `\btoday\b` and
`\btonight\b` regular-expression tests on the lower-cased message.
`setUTCDate(getUTCDate() + 1)` advances exactly one UTC day, i.e. adds
`msPerDay`. -/
def inferRelativeDateFromMessage (message : String) (userLocalNow : Int) : Option String :=
  let msg := jsToLower message
  if hasWord msg "tomorrow" then some (formatYmdFromLocalDate (userLocalNow + msPerDay))
  else if hasWord msg "today" ∨ hasWord msg "tonight" then some (formatYmdFromLocalDate userLocalNow)
  else none

/-- `normalizedDate.split("-").map(Number)` destructured into three
components; a missing component is `Number(undefined) = NaN = none`. -/
def parseDateParts (s : String) : Option Int × Option Int × Option Int :=
  let parts := jsSplitDash s
  ((parts[0]?).bind toNumber, (parts[1]?).bind toNumber, (parts[2]?).bind toNumber)

/-- Lookup in `memberNameToId`, the `Map` keyed by lower-cased member names.
When two members share a lower-cased name the `Map` constructor keeps the
later entry, hence the search over the reversed list. -/
def memberMapLookup (members : List Member) (key : String) : Option String :=
  (members.reverse.find? (fun m => jsToLower m.name == key)).map (fun m => m.id)

/-- Lines 254–269: resolution of `assignedMembers` names to member ids, with
the fallback to the current user (or the first member).  `if (id)` and the
truthiness test on `currentName` make the empty string act like absence. -/
def resolveMemberIds (members : List Member) (currentUserName : Option String)
    (assignedMembers : Option (List String)) : List String :=
  let resolved := (assignedMembers.getD []).filterMap
    (fun n => (memberMapLookup members (jsToLower n)).bind
      (fun i => if i = "" then none else some i))
  match members, resolved with
  | m0 :: _, [] =>
    match currentUserName with
    | some cu =>
      if cu = "" then [m0.id]
      else [(memberMapLookup members (jsToLower cu)).getD m0.id]
    | none => [m0.id]
  | _, _ => resolved

/-- `resolvedMemberIds.length > 0 ? resolvedMemberIds : undefined`. -/
def memberIdsOpt (l : List String) : Option (List String) :=
  if l.isEmpty then none else some l

def dayNamesShort : List String := ["Sun", "Mon", "Tue", "Wed", "Thu", "Fri", "Sat"]

def monthNamesShort : List String :=
  ["Jan", "Feb", "Mar", "Apr", "May", "Jun", "Jul", "Aug", "Sep", "Oct", "Nov", "Dec"]

/-- The inner `fmtTime` of `formatTimestamp` (12-hour clock from UTC
accessors; `h % 12 || 12`). -/
def fmtTimeOfMs (ms : Int) : String :=
  let h := getUTCHoursOfMs ms
  let m := getUTCMinutesOfMs ms
  let ampm := if h ≥ 12 then "PM" else "AM"
  let h12 := if h.tmod 12 = 0 then (12 : Int) else h.tmod 12
  if m = 0 then toString h12 ++ " " ++ ampm
  else toString h12 ++ ":" ++ padStart2 (toString m) ++ " " ++ ampm

/-- `formatTimestamp` on non-`NaN` timestamps; a `NaN` timestamp renders
through JS `undefined`/`NaN` string pieces, which no claim inspects, so that
branch is collapsed to a fixed placeholder. -/
def formatTimestamp (startMs endMs : Option Int) (durationLabel : String) : String :=
  match startMs, endMs with
  | some s, some e =>
    match civilOfMs s with
    | (_, mo, dy) =>
      dayNamesShort.getD (getUTCDayOfMs s).toNat "undefined" ++ ", "
        ++ monthNamesShort.getD (mo - 1).toNat "undefined" ++ " " ++ toString dy ++ " "
        ++ fmtTimeOfMs s ++ "–" ++ fmtTimeOfMs e ++ " · " ++ durationLabel
  | _, _ => "Invalid Date"

/-- `(d / 60).toFixed(1)` for a duration not divisible by 60, modelled by
rounding the exact rational `d / 6` half-up to an integer number of tenths
(the binary floating-point noise of `toFixed` is outside the model; no
claim inspects this label). -/
def toFixed1Of60th (d : Int) : String :=
  let scaled := (20 * d + 60).fdiv 120
  toString (scaled.fdiv 10) ++ "." ++ toString (scaled.emod 10)

/-- The `durationLabel` of lines 276–279. -/
def durationLabelOf (d : Int) : String :=
  if d ≥ 60 then
    (if d.tmod 60 = 0 then toString (d.tdiv 60) else toFixed1Of60th d) ++ "hr"
  else toString d ++ " min"

/-- The `fmtHr` closure of the recurring branch. -/
def fmtHr (h m : Int) : String :=
  let ampm := if h ≥ 12 then "PM" else "AM"
  let h12 := if h.tmod 12 = 0 then (12 : Int) else h.tmod 12
  if m = 0 then toString h12 ++ " " ++ ampm
  else toString h12 ++ ":" ++ padStart2 (toString m) ++ " " ++ ampm

/-- `["Sun", ...][d]` with a JS out-of-range index rendering as
`undefined`. -/
def dayLabelOf (d : Int) : String :=
  if 0 ≤ d ∧ d < 7 then dayNamesShort.getD d.toNat "undefined" else "undefined"

/-- The display message of the recurring branch (lines 314–339). -/
def recurringMessage (pa : ParsedArgs) (weeks : Int) (count : Nat) : String :=
  let sortedDays := List.insertionSort (fun a b : Int => a ≤ b) (pa.recurringDays.getD [])
  let dayLabels := sortedDays.map dayLabelOf
  let dayRange :=
    if dayLabels.length > 2 then dayLabels.headD "" ++ "–" ++ dayLabels.getLastD ""
    else String.intercalate ", " dayLabels
  let endTotalMinutes := pa.startHour * 60 + pa.startMinute + pa.durationMinutes
  let endHour := (endTotalMinutes.fdiv 60).tmod 24
  let endMin := endTotalMinutes.tmod 60
  let base := "Adding " ++ pa.title ++ " every " ++ dayRange ++ ", "
    ++ fmtHr pa.startHour pa.startMinute ++ "–" ++ fmtHr endHour endMin
    ++ " for " ++ toString weeks ++ " week" ++ (if weeks = 1 then "" else "s")
    ++ " (" ++ toString count ++ " events)."
  match pa.location with
  | some l => if l = "" then base else base ++ " Location: " ++ l ++ "."
  | none => base

/-! ## The proposal builders and the recurrence expansion -/

/-- The proposal object literal, written identically in the recurring loop
(lines 300–308) and the single branch (lines 355–363): only `start`/`end`
vary, `end` is `start` plus the duration. -/
def mkProposal (pa : ParsedArgs) (mids : List String) (startMs : Option Int) : EventProposal :=
  { title := pa.title
    start := startMs
    end_ := startMs.map (fun t => t + pa.durationMinutes * msPerMinute)
    location := pa.location
    attendees := pa.attendees
    description := pa.description
    memberIds := memberIdsOpt mids }

/-- The stable-sort order of `proposals.sort((a, b) => a.start - b.start)`. -/
def startLeR (a b : EventProposal) : Prop := jsLeB a.start b.start = true

instance : DecidableRel startLeR := fun a b => by unfold startLeR; infer_instance

/-- `Array.prototype.sort` with the comparator `(a, b) => a.start - b.start`:
a stable comparison sort, modelled by Mathlib's stable insertion sort. -/
def sortByStart (l : List EventProposal) : List EventProposal :=
  List.insertionSort startLeR l

/-- The proposal-pushing double loop of lines 286–310: for every week index
and every entry of `recurringDays`, offset the anchor date forward to that
weekday (wrapping by 7 when negative) plus whole weeks, and build the
proposal. -/
def expandGen (year month day : Option Int) (pa : ParsedArgs) (days : List Int)
    (weeks : Int) (tz : Int) (mids : List String) : List EventProposal :=
  let firstDow : Option Int :=
    (jsDateUTC year (jsSub month (some 1)) day (some 0) (some 0)).map getUTCDayOfMs
  (List.range weeks.toNat).flatMap (fun week =>
    days.map (fun dayNum =>
      let daysOffset : Option Int := firstDow.map (fun fd =>
        let o := dayNum - fd
        (if o < 0 then o + 7 else o) + (week : Int) * 7)
      let startMs : Option Int :=
        (jsDateUTC year (jsSub month (some 1)) (jsAdd day daysOffset)
          (some pa.startHour) (some pa.startMinute)).map (fun t => t + tz * msPerMinute)
      mkProposal pa mids startMs))

/-- Lines 282–312, the recurring-event expansion: the pushed proposals of
`expandGen` followed by `proposals.sort((a, b) => a.start - b.start)`. -/
def expandRecurring (year month day : Option Int) (pa : ParsedArgs) (days : List Int)
    (weeks : Int) (tz : Int) (mids : List String) : List EventProposal :=
  sortByStart (expandGen year month day pa days weeks tz mids)

/-- The single-event start of lines 351–352. -/
def singleStartMs (year month day : Option Int) (pa : ParsedArgs) (tz : Int) : Option Int :=
  (jsDateUTC year (jsSub month (some 1)) day (some pa.startHour) (some pa.startMinute)).map
    (fun t => t + tz * msPerMinute)

/-! ## The `processMessage` handler -/

def noApiKeyMessage : String :=
  "Please set OPENAI_API_KEY in your Convex environment to use the AI assistant."

def fallbackHintMessage : String :=
  "I\x27m not sure what you\x27d like to do. Try something like \"coffee with George tomorrow at 3\"."

def remoteErrorMessage (e : String) : String :=
  "Something went wrong talking to the AI: " ++ e ++ ". Please try again."

/-- The body run for the first `create_event` function call (lines
240–375): member resolution, date normalisation, then the recurring or the
single branch. -/
def handleParsed (env : Env) (args : ProcessArgs) (pa : ParsedArgs) : AIResponse :=
  let tz := args.timezoneOffset.getD 0
  let members := args.householdMembers.getD []
  let mids := resolveMemberIds members args.currentUserName pa.assignedMembers
  let userLocalNow := getUserLocalNow env.nowMs tz
  let nd := (inferRelativeDateFromMessage args.message userLocalNow).getD pa.date
  match parseDateParts nd with
  | (year, month, day) =>
    if (pa.recurringDays.getD []).length > 0 then
      let days := pa.recurringDays.getD []
      let weeks := pa.recurringWeeks.getD RECURRING_WEEKS
      let proposals := expandRecurring year month day pa days weeks tz mids
      let rid := "recurring-" ++ toString env.ridNowMs ++ "-" ++ env.randSuffix
      { type := "create_events"
        message := recurringMessage pa weeks proposals.length
        proposal := proposals.head?
        proposals := some proposals
        recurrenceId := some rid }
    else
      let startMs := singleStartMs year month day pa tz
      let endMs := startMs.map (fun t => t + pa.durationMinutes * msPerMinute)
      let p := mkProposal pa mids startMs
      let base := formatTimestamp startMs endMs (durationLabelOf pa.durationMinutes)
      let message :=
        match pa.location with
        | some l => if l = "" then base else base ++ " · " ++ l
        | none => base
      { type := "create_event", message := message, proposal := some p }

/-- The `for (const item of response.output)` loop: the first function call
named `create_event` decides the result (its payload handled, or its parse
failure thrown); with no such item the loop falls through (`none`). -/
def processOutput (env : Env) (args : ProcessArgs) : List OutputItem → Option (Except String AIResponse)
  | [] => none
  | OutputItem.functionCall name parsed :: rest =>
    if name = "create_event" then some (parsed.map (handleParsed env args))
    else processOutput env args rest
  | OutputItem.otherItem :: rest => processOutput env args rest

/-- The `processMessage` handler (lines 50–397).  The `try`/`catch` is the
outer `match` on the `Except`; the missing- or empty-string API key returns
early; after the loop a truthy `output_text` is echoed, otherwise the usage
hint is returned. -/
def processMessage (env : Env) (args : ProcessArgs) (outcome : RemoteOutcome) : AIResponse :=
  if env.apiKey.getD "" = "" then { type := "message", message := noApiKeyMessage }
  else
    let body : Except String AIResponse :=
      match outcome with
      | RemoteOutcome.threw e => Except.error e
      | RemoteOutcome.returned resp =>
        match processOutput env args resp.output with
        | some r => r
        | none =>
          match resp.output_text with
          | some t =>
            if t = "" then Except.ok { type := "message", message := fallbackHintMessage }
            else Except.ok { type := "message", message := t }
          | none => Except.ok { type := "message", message := fallbackHintMessage }
    match body with
    | Except.ok r => r
    | Except.error e => { type := "message", message := remoteErrorMessage e }

/-! ## The Convex document store of `src/convex/events.ts`

Mutations run against a document store; a mutation that throws is modelled
as an `Except.error` carrying the thrown message together with the store as
it stood at the throw.  Document ids are the values of a single creation
counter, so `query(...).first()` returns the earliest-created document. -/

/-- An `events` document (`src/convex/schema.ts`): `recurrence` is the
optional recurrence-id string, `end` is again spelled `end_`. -/
structure StoredEvent where
  id : Nat
  calendarId : Nat
  title : String
  description : Option String := none
  start : Int
  end_ : Int
  location : Option String := none
  recurrence : Option String := none
  updatedAt : Int
  createdAt : Int
deriving DecidableEq, Repr

/-- The tables touched by the embedded mutations; for `users`, `workspaces`
and `calendars` only the document ids matter to the claims. -/
structure DB where
  nextId : Nat := 0
  users : List Nat := []
  workspaces : List Nat := []
  calendars : List Nat := []
  events : List StoredEvent := []
deriving DecidableEq, Repr

/-- A mutation step: it yields a value or a thrown message, plus the store
at return or throw time. -/
def DbM (α : Type) : Type := DB → Except String α × DB

def DbM.pure {α : Type} (a : α) : DbM α := fun db => (Except.ok a, db)

def DbM.bind {α β : Type} (x : DbM α) (f : α → DbM β) : DbM β := fun db =>
  match x db with
  | (Except.ok a, db1) => f a db1
  | (Except.error e, db1) => (Except.error e, db1)

instance : Monad DbM where
  pure := DbM.pure
  bind := DbM.bind

/-- `throw new Error(msg)` inside a mutation. -/
def DbM.throwErr {α : Type} (e : String) : DbM α := fun db => (Except.error e, db)

def insertUser : DbM Nat := fun db =>
  (Except.ok db.nextId, { db with nextId := db.nextId + 1, users := db.users ++ [db.nextId] })

def insertWorkspace : DbM Nat := fun db =>
  (Except.ok db.nextId, { db with nextId := db.nextId + 1, workspaces := db.workspaces ++ [db.nextId] })

def insertCalendar : DbM Nat := fun db =>
  (Except.ok db.nextId, { db with nextId := db.nextId + 1, calendars := db.calendars ++ [db.nextId] })

def insertEvent (mk : Nat → StoredEvent) : DbM Nat := fun db =>
  (Except.ok db.nextId,
    { db with nextId := db.nextId + 1, events := db.events ++ [mk db.nextId] })

/-! ## `src/convex/eventValidation.ts` -/

def MAX_EVENT_DURATION_MS : Int := 24 * 60 * 60 * 1000

/-- `validateEvent`: throws on a title that is blank after trimming
(`!args.title.trim()`), a non-positive interval, or a duration above the
24-hour cap. -/
def validateEvent (title : String) (start end_ : Int) : DbM Unit :=
  if jsTrim title = "" then DbM.throwErr "Title cannot be empty"
  else if end_ ≤ start then DbM.throwErr "End time must be after start time"
  else if end_ - start > MAX_EVENT_DURATION_MS then
    DbM.throwErr "Event duration cannot exceed 24 hours"
  else DbM.pure ()

/-- The argument object shared by `createEvent` and the elements of
`batchCreateEvents`. -/
structure EventArgs where
  title : String
  description : Option String := none
  start : Int
  end_ : Int
  location : Option String := none
deriving DecidableEq, Repr

/-- `ctx.db.query("calendars").first()` plus the default-user/workspace/
calendar bootstrap, written identically in `createEvent` and
`batchCreateEvents`. -/
def getOrCreateCalendar : DbM Nat := fun db =>
  match db.calendars with
  | c :: _ => (Except.ok c, db)
  | [] =>
    (do
      let _ ← insertUser
      let _ ← insertWorkspace
      insertCalendar) db

/-- The `createEvent` mutation (lines 82–134): validate, get or create the
calendar, insert, return the new id. -/
def createEvent (args : EventArgs) (now : Int) : DbM Nat := do
  validateEvent args.title args.start args.end_
  let cal ← getOrCreateCalendar
  insertEvent (fun i =>
    { id := i, calendarId := cal, title := args.title, description := args.description,
      start := args.start, end_ := args.end_, location := args.location,
      recurrence := none, updatedAt := now, createdAt := now })

/-- The leading `for (const event of args.events) validateEvent(event)` loop
of `batchCreateEvents`. -/
def validateAll : List EventArgs → DbM Unit
  | [] => DbM.pure ()
  | e :: rest => do
    validateEvent e.title e.start e.end_
    validateAll rest

def insertBatch (cal : Nat) (recurrenceId : Option String) (now : Int) :
    List EventArgs → DbM Unit
  | [] => DbM.pure ()
  | e :: rest => do
    let _ ← insertEvent (fun i =>
      { id := i, calendarId := cal, title := e.title, description := e.description,
        start := e.start, end_ := e.end_, location := e.location,
        recurrence := recurrenceId, updatedAt := now, createdAt := now })
    insertBatch cal recurrenceId now rest

/-- The `batchCreateEvents` mutation (lines 155–218): validate every
element first, then get or create the calendar and insert all elements
(each tagged with the batch's recurrence id). -/
def batchCreateEvents (events : List EventArgs) (recurrenceId : Option String)
    (now : Int) : DbM Unit := do
  validateAll events
  let cal ← getOrCreateCalendar
  insertBatch cal recurrenceId now events

/-- The `deleteRecurringEvents` mutation (lines 229–248): collect the
events starting at or after `fromStart` (the `by_start` index range), keep
those whose `recurrence` equals the given id, delete each by id, and return
how many were deleted. -/
def deleteRecurringEvents (recurrenceId : String) (fromStart : Int) : DbM Nat := fun db =>
  let allEvents := db.events.filter (fun e => decide (fromStart ≤ e.start))
  let toDelete := allEvents.filter (fun e => e.recurrence == some recurrenceId)
  (Except.ok toDelete.length,
    { db with events := toDelete.foldl (fun evs e => evs.filter (fun x => x.id != e.id)) db.events })

/-! ## `clampWeeks` of `src/app/calendar/chat-panel.tsx` -/

def MIN_RECURRING_WEEKS : Int := 1

def MAX_RECURRING_WEEKS : Int := 24

/-- `clampWeeks`: `Math.min(MAX_RECURRING_WEEKS, Math.max(MIN_RECURRING_WEEKS, value))`. -/
def clampWeeks (value : Int) : Int :=
  min MAX_RECURRING_WEEKS (max MIN_RECURRING_WEEKS value)

/-! ## General lemmas about the handler -/

theorem handleParsed_type (env : Env) (args : ProcessArgs) (pa : ParsedArgs) :
    (handleParsed env args pa).type = "create_events" ∨
    (handleParsed env args pa).type = "create_event" := by
  unfold handleParsed
  rcases parseDateParts ((inferRelativeDateFromMessage args.message
    (getUserLocalNow env.nowMs (args.timezoneOffset.getD 0))).getD pa.date) with ⟨y, m, d⟩
  dsimp only
  split
  · exact Or.inl rfl
  · exact Or.inr rfl

/-- The output loop yields `Except.ok a` only for the handled payload of a
`create_event` function call present among the items. -/
theorem processOutput_ok (env : Env) (args : ProcessArgs) :
    ∀ (items : List OutputItem) (a : AIResponse),
      processOutput env args items = some (Except.ok a) →
      ∃ pa : ParsedArgs,
        OutputItem.functionCall "create_event" (Except.ok pa) ∈ items ∧
        a = handleParsed env args pa := by
  intro items
  induction items with
  | nil => intro a h; simp [processOutput] at h
  | cons it rest ih =>
    intro a h
    cases it with
    | functionCall name parsed =>
      rw [processOutput] at h
      by_cases hn : name = "create_event"
      · rw [if_pos hn] at h
        cases parsed with
        | error e => simp [Except.map] at h
        | ok pa =>
          simp only [Except.map, Option.some.injEq, Except.ok.injEq] at h
          exact ⟨pa, by rw [hn]; exact List.mem_cons_self _ _, h.symm⟩
      · rw [if_neg hn] at h
        rcases ih a h with ⟨pa, hmem, he⟩
        exact ⟨pa, List.mem_cons_of_mem _ hmem, he⟩
    | otherItem =>
      rw [processOutput] at h
      rcases ih a h with ⟨pa, hmem, he⟩
      exact ⟨pa, List.mem_cons_of_mem _ hmem, he⟩

/-- C5: for every environment, request and remote outcome — including a
thrown remote call and a malformed payload — `processMessage` returns
normally (it is a total function of this model) and its `type` tag is one of
the three variants `message`, `create_event`, `create_events`. -/
theorem processMessage_total_three_variants (env : Env) (args : ProcessArgs)
    (outcome : RemoteOutcome) :
    (processMessage env args outcome).type = "message" ∨
    (processMessage env args outcome).type = "create_event" ∨
    (processMessage env args outcome).type = "create_events" := by
  rcases outcome with e | resp
  · unfold processMessage
    split
    · exact Or.inl rfl
    · exact Or.inl rfl
  · unfold processMessage
    split
    · exact Or.inl rfl
    · dsimp only
      rcases hpo : processOutput env args resp.output with _ | r
      · dsimp only
        rcases ht : resp.output_text with _ | t
        · exact Or.inl rfl
        · dsimp only
          by_cases hte : t = ""
          · rw [if_pos hte]
            exact Or.inl rfl
          · rw [if_neg hte]
            exact Or.inl rfl
      · rcases r with e | a
        · exact Or.inl rfl
        · rcases processOutput_ok env args resp.output a hpo with ⟨pa, _, he⟩
          subst he
          rcases handleParsed_type env args pa with h | h
          · exact Or.inr (Or.inr h)
          · exact Or.inr (Or.inl h)

/-- C2 counterexample: there is no deterministic fallback extractor in this
handler.  On a create-style utterance, a thrown remote call produces a bare
`message` result whose text embeds the raw error and which carries no
proposal, and a missing API key produces a configuration error message —
the failure is surfaced to the end user instead of being recovered by a
local parse. -/
theorem c2_counterexample :
    processMessage { apiKey := some "k", nowMs := 0, ridNowMs := 0, randSuffix := "r" }
        { message := "add meeting tomorrow at 3pm" } (RemoteOutcome.threw "network error")
      = { type := "message",
          message := "Something went wrong talking to the AI: network error. Please try again." } ∧
    processMessage { apiKey := none, nowMs := 0, ridNowMs := 0, randSuffix := "r" }
        { message := "add meeting tomorrow at 3pm" } (RemoteOutcome.threw "network error")
      = { type := "message",
          message := "Please set OPENAI_API_KEY in your Convex environment to use the AI assistant." } := by
  exact ⟨rfl, rfl⟩

/-- C2 amended: when the remote call throws, `processMessage` does not run
any fallback extractor; it returns a `message` result that embeds the error
text, and when no (or an empty) API key is configured it returns a
`message` result asking for the key.  Neither path throws. -/
theorem c2_failure_paths_surface_errors :
    (∀ (env : Env) (args : ProcessArgs) (e : String), env.apiKey.getD "" ≠ "" →
      processMessage env args (RemoteOutcome.threw e)
        = { type := "message", message := remoteErrorMessage e }) ∧
    (∀ (env : Env) (args : ProcessArgs) (outcome : RemoteOutcome), env.apiKey.getD "" = "" →
      processMessage env args outcome = { type := "message", message := noApiKeyMessage }) := by
  constructor
  · intro env args e h
    unfold processMessage
    rw [if_neg h]
  · intro env args o h
    unfold processMessage
    rw [if_pos h]

theorem c2_failure_paths_surface_errors_witness :
    processMessage { apiKey := some "key", nowMs := 5, ridNowMs := 6, randSuffix := "z" }
        { message := "hi" } (RemoteOutcome.threw "boom")
      = { type := "message", message := remoteErrorMessage "boom" } ∧
    processMessage { apiKey := some "", nowMs := 5, ridNowMs := 6, randSuffix := "z" }
        { message := "hi" } (RemoteOutcome.returned { output := [] })
      = { type := "message", message := noApiKeyMessage } :=
  ⟨c2_failure_paths_surface_errors.1 _ _ _ (by decide),
   c2_failure_paths_surface_errors.2 _ _ _ (by decide)⟩

/-- C8: the recurring week count defaults to `RECURRING_WEEKS = 8` when the
extraction leaves `recurringWeeks` unspecified (the `??` on line 283), and
the caller-facing `clampWeeks` clamps every requested count into
`[MIN_RECURRING_WEEKS, MAX_RECURRING_WEEKS] = [1, 24]`: zero or negative
to 1, above 24 down to 24, in-range values unchanged. -/
theorem c8_weeks_default_and_clamp :
    (∀ pa : ParsedArgs, pa.recurringWeeks = none →
      pa.recurringWeeks.getD RECURRING_WEEKS = 8) ∧
    (∀ v : Int,
      (v ≤ 0 → clampWeeks v = 1) ∧
      (MAX_RECURRING_WEEKS < v → clampWeeks v = MAX_RECURRING_WEEKS) ∧
      (MIN_RECURRING_WEEKS ≤ v → v ≤ MAX_RECURRING_WEEKS → clampWeeks v = v) ∧
      MIN_RECURRING_WEEKS ≤ clampWeeks v ∧ clampWeeks v ≤ MAX_RECURRING_WEEKS) := by
  constructor
  · intro pa h
    rw [h]
    rfl
  · intro v
    unfold clampWeeks MIN_RECURRING_WEEKS MAX_RECURRING_WEEKS
    refine ⟨fun h => ?_, fun h => ?_, fun h1 h2 => ?_, ?_, ?_⟩ <;> omega

theorem c8_weeks_default_and_clamp_witness :
    ({ title := "x", date := "", startHour := 0, startMinute := 0,
       durationMinutes := 0 : ParsedArgs }).recurringWeeks.getD RECURRING_WEEKS = 8 ∧
    clampWeeks 0 = 1 ∧ clampWeeks (-3) = 1 ∧ clampWeeks 30 = 24 ∧ clampWeeks 8 = 8 :=
  ⟨c8_weeks_default_and_clamp.1 _ rfl,
   (c8_weeks_default_and_clamp.2 0).1 (by decide),
   (c8_weeks_default_and_clamp.2 (-3)).1 (by decide),
   (c8_weeks_default_and_clamp.2 30).2.1 (by decide),
   (c8_weeks_default_and_clamp.2 8).2.2.1 (by decide) (by decide)⟩

/-! ## Lemmas about the store mutations -/

deriving instance DecidableEq for Except

theorem validateEvent_ok (t : String) (s e : Int) (db : DB)
    (h : ¬(jsTrim t = "" ∨ e ≤ s ∨ MAX_EVENT_DURATION_MS < e - s)) :
    validateEvent t s e db = (Except.ok (), db) := by
  push_neg at h
  unfold validateEvent
  rw [if_neg h.1, if_neg (by omega), if_neg (by omega)]
  rfl

theorem validateEvent_err (t : String) (s e : Int) (db : DB)
    (h : jsTrim t = "" ∨ e ≤ s ∨ MAX_EVENT_DURATION_MS < e - s) :
    ∃ msg, validateEvent t s e db = (Except.error msg, db) := by
  unfold validateEvent
  by_cases h1 : jsTrim t = ""
  · exact ⟨"Title cannot be empty", by rw [if_pos h1]; rfl⟩
  · rw [if_neg h1]
    by_cases h2 : e ≤ s
    · exact ⟨"End time must be after start time", by rw [if_pos h2]; rfl⟩
    · rw [if_neg h2]
      have h3 : e - s > MAX_EVENT_DURATION_MS := by
        rcases h with h | h | h
        · exact absurd h h1
        · exact absurd h h2
        · omega
      exact ⟨"Event duration cannot exceed 24 hours", by rw [if_pos h3]; rfl⟩

theorem createEvent_ok_of_valid (args : EventArgs) (now : Int) (db : DB)
    (h : ¬(jsTrim args.title = "" ∨ args.end_ ≤ args.start ∨
      MAX_EVENT_DURATION_MS < args.end_ - args.start)) :
    ∃ (i cal : Nat) (dbf : DB),
      createEvent args now db = (Except.ok i, dbf) ∧
      dbf.events = db.events ++
        [{ id := i, calendarId := cal, title := args.title,
           description := args.description, start := args.start, end_ := args.end_,
           location := args.location, recurrence := none,
           updatedAt := now, createdAt := now }] := by
  have hval := validateEvent_ok args.title args.start args.end_ db h
  rcases hc : db.calendars with _ | ⟨c, cs⟩
  · refine ⟨db.nextId + 3, db.nextId + 2,
      { db with
        nextId := db.nextId + 4
        users := db.users ++ [db.nextId]
        workspaces := db.workspaces ++ [db.nextId + 1]
        calendars := db.calendars ++ [db.nextId + 2]
        events := db.events ++
          [{ id := db.nextId + 3, calendarId := db.nextId + 2, title := args.title,
             description := args.description, start := args.start, end_ := args.end_,
             location := args.location, recurrence := none,
             updatedAt := now, createdAt := now }] }, ?_, by simp⟩
    unfold createEvent getOrCreateCalendar insertUser insertWorkspace insertCalendar insertEvent
    simp [Bind.bind, DbM.bind, hval, hc]
  · refine ⟨db.nextId, c,
      { db with
        nextId := db.nextId + 1
        events := db.events ++
          [{ id := db.nextId, calendarId := c, title := args.title,
             description := args.description, start := args.start, end_ := args.end_,
             location := args.location, recurrence := none,
             updatedAt := now, createdAt := now }] }, ?_, by simp⟩
    unfold createEvent getOrCreateCalendar insertEvent
    simp [Bind.bind, DbM.bind, hval, hc]

def emptyDB : DB := {}

/-- C6 counterexample: the title `" "` (one space) is not empty — its length
is positive — and the interval `0 < 1000` is valid and within the cap, yet
`createEvent` rejects it, because the source tests `!args.title.trim()`.
The claim's "rejects if and only if the title is empty, or ..." therefore
fails in the only-if direction. -/
theorem c6_counterexample :
    0 < (" " : String).length ∧ (0 : Int) < 1000 ∧
    (1000 : Int) - 0 ≤ MAX_EVENT_DURATION_MS ∧
    (createEvent { title := " ", start := 0, end_ := 1000 } 0 emptyDB).1
      = Except.error "Title cannot be empty" :=
  ⟨by decide, by decide, by decide, by decide⟩

/-- C6 amended: `createEvent` rejects with a validation error if and only if
the title is empty after trimming whitespace, or end ≤ start, or the
duration exceeds the 24-hour cap; for every other input it inserts the
event (with exactly the given fields) and returns its id. -/
theorem c6_createEvent_validation (args : EventArgs) (now : Int) (db : DB) :
    ((∃ msg, (createEvent args now db).1 = Except.error msg) ↔
      (jsTrim args.title = "" ∨ args.end_ ≤ args.start ∨
        MAX_EVENT_DURATION_MS < args.end_ - args.start)) ∧
    (¬(jsTrim args.title = "" ∨ args.end_ ≤ args.start ∨
        MAX_EVENT_DURATION_MS < args.end_ - args.start) →
      ∃ (i cal : Nat) (dbf : DB),
        createEvent args now db = (Except.ok i, dbf) ∧
        dbf.events = db.events ++
          [{ id := i, calendarId := cal, title := args.title,
             description := args.description, start := args.start, end_ := args.end_,
             location := args.location, recurrence := none,
             updatedAt := now, createdAt := now }]) := by
  by_cases h : jsTrim args.title = "" ∨ args.end_ ≤ args.start ∨
      MAX_EVENT_DURATION_MS < args.end_ - args.start
  · refine ⟨⟨fun _ => h, fun _ => ?_⟩, fun hn => absurd h hn⟩
    obtain ⟨msg, hv⟩ := validateEvent_err args.title args.start args.end_ db h
    refine ⟨msg, ?_⟩
    unfold createEvent
    simp [Bind.bind, DbM.bind, hv]
  · obtain ⟨i, cal, dbf, he, hev⟩ := createEvent_ok_of_valid args now db h
    constructor
    · constructor
      · rintro ⟨msg, hmsg⟩
        rw [he] at hmsg
        simp at hmsg
      · intro hh
        exact absurd hh h
    · intro _
      exact ⟨i, cal, dbf, he, hev⟩

theorem c6_createEvent_validation_witness :
    ∃ (i cal : Nat) (dbf : DB),
      createEvent { title := "Dinner", start := 0, end_ := 1000 } 7 emptyDB
        = (Except.ok i, dbf) ∧
      dbf.events = emptyDB.events ++
        [{ id := i, calendarId := cal, title := "Dinner",
           description := none, start := 0, end_ := 1000,
           location := none, recurrence := none,
           updatedAt := 7, createdAt := 7 }] :=
  (c6_createEvent_validation { title := "Dinner", start := 0, end_ := 1000 } 7 emptyDB).2
    (by decide)

theorem validateAll_err :
    ∀ (events : List EventArgs) (db : DB),
      (∃ e ∈ events, jsTrim e.title = "" ∨ e.end_ ≤ e.start ∨
        MAX_EVENT_DURATION_MS < e.end_ - e.start) →
      ∃ msg, validateAll events db = (Except.error msg, db) := by
  intro events
  induction events with
  | nil =>
    intro db h
    rcases h with ⟨e, he, _⟩
    cases he
  | cons e rest ih =>
    intro db h
    by_cases hbad : jsTrim e.title = "" ∨ e.end_ ≤ e.start ∨
        MAX_EVENT_DURATION_MS < e.end_ - e.start
    · obtain ⟨msg, hv⟩ := validateEvent_err e.title e.start e.end_ db hbad
      exact ⟨msg, by unfold validateAll; simp [Bind.bind, DbM.bind, hv]⟩
    · have hval := validateEvent_ok e.title e.start e.end_ db hbad
      have hrest : ∃ e2 ∈ rest, jsTrim e2.title = "" ∨ e2.end_ ≤ e2.start ∨
          MAX_EVENT_DURATION_MS < e2.end_ - e2.start := by
        rcases h with ⟨e2, he2, hb2⟩
        rcases List.mem_cons.mp he2 with rfl | hmem
        · exact absurd hb2 hbad
        · exact ⟨e2, hmem, hb2⟩
      obtain ⟨msg, hv2⟩ := ih db hrest
      exact ⟨msg, by unfold validateAll; simp [Bind.bind, DbM.bind, hval, hv2]⟩

/-- C9: `batchCreateEvents` validates every element before performing any
insert, so when at least one element is invalid (blank trimmed title,
end ≤ start, or duration above the cap) the mutation throws and the store
is left exactly as it was — no event at all is inserted. -/
theorem c9_batch_all_validated_before_insert (events : List EventArgs)
    (rid : Option String) (now : Int) (db : DB)
    (h : ∃ e ∈ events, jsTrim e.title = "" ∨ e.end_ ≤ e.start ∨
      MAX_EVENT_DURATION_MS < e.end_ - e.start) :
    (∃ msg, (batchCreateEvents events rid now db).1 = Except.error msg) ∧
    (batchCreateEvents events rid now db).2 = db := by
  obtain ⟨msg, hv⟩ := validateAll_err events db h
  constructor
  · exact ⟨msg, by unfold batchCreateEvents; simp [Bind.bind, DbM.bind, hv]⟩
  · unfold batchCreateEvents
    simp [Bind.bind, DbM.bind, hv]

def c9goodEvent : EventArgs := { title := "Walk", start := 0, end_ := 600000 }

def c9badEvent : EventArgs := { title := "Nap", start := 5, end_ := 5 }

def c9db : DB :=
  { nextId := 9
    calendars := [3]
    events := [{ id := 4, calendarId := 3, title := "Existing", start := 0, end_ := 1,
                 updatedAt := 0, createdAt := 0 }] }

theorem c9_batch_all_validated_before_insert_witness :
    (∃ msg, (batchCreateEvents [c9goodEvent, c9badEvent] none 0 c9db).1 = Except.error msg) ∧
    (batchCreateEvents [c9goodEvent, c9badEvent] none 0 c9db).2 = c9db :=
  c9_batch_all_validated_before_insert [c9goodEvent, c9badEvent] none 0 c9db
    ⟨c9badEvent, by decide, by decide⟩

theorem foldl_delete_filter (ds : List StoredEvent) :
    ∀ (l : List StoredEvent),
      ds.foldl (fun evs e => evs.filter (fun x => x.id != e.id)) l
        = l.filter (fun x => ds.all (fun e => x.id != e.id)) := by
  induction ds with
  | nil => intro l; simp
  | cons d rest ih =>
    intro l
    rw [List.foldl_cons, ih, List.filter_filter]
    apply List.filter_congr
    intro x _
    simp only [List.all_cons]
    exact Bool.and_comm _ _

/-- C10: `deleteRecurringEvents(recurrenceId, fromStart)` returns exactly
the number of stored events whose `recurrence` equals the id and whose
start is at or after `fromStart`, and the resulting store keeps exactly
every other event (different id, no recurrence field, or earlier start)
and touches nothing else.  Well-formedness hypothesis: stored document ids
are distinct, as the store guarantees. -/
theorem c10_deleteRecurringEvents_spec (rid : String) (fromStart : Int) (db : DB)
    (hnodup : (db.events.map (fun e => e.id)).Nodup) :
    (deleteRecurringEvents rid fromStart db).1
      = Except.ok (db.events.filter
          (fun e => e.recurrence == some rid && decide (fromStart ≤ e.start))).length ∧
    (deleteRecurringEvents rid fromStart db).2
      = { db with events :=
            db.events.filter (fun e => !(e.recurrence == some rid && decide (fromStart ≤ e.start))) } := by
  have hfilter :
      (db.events.filter (fun e => decide (fromStart ≤ e.start))).filter
          (fun e => e.recurrence == some rid)
        = db.events.filter
          (fun e => e.recurrence == some rid && decide (fromStart ≤ e.start)) :=
    List.filter_filter _ _
  constructor
  · simp only [deleteRecurringEvents]
    rw [hfilter]
  · simp only [deleteRecurringEvents]
    rw [hfilter, foldl_delete_filter]
    congr 1
    apply List.filter_congr
    intro x hx
    by_cases hq : (x.recurrence == some rid && decide (fromStart ≤ x.start)) = true
    · have hxdel : x ∈ db.events.filter
          (fun e => e.recurrence == some rid && decide (fromStart ≤ e.start)) :=
        List.mem_filter.mpr ⟨hx, hq⟩
      rw [hq]
      simp only [Bool.not_true]
      rw [List.all_eq_false]
      exact ⟨x, hxdel, by simp⟩
    · rw [Bool.eq_false_iff.mpr hq]
      simp only [Bool.not_false]
      rw [List.all_eq_true]
      intro e hedel
      have hemem := List.mem_filter.mp hedel
      by_contra hne
      have hids : x.id = e.id := by
        simpa using hne
      have hxe : e = x :=
        List.inj_on_of_nodup_map hnodup hemem.1 hx hids.symm
      rw [hxe] at hemem
      exact hq hemem.2

def c10db : DB :=
  { nextId := 10
    calendars := [0]
    events :=
      [{ id := 1, calendarId := 0, title := "A", start := 100, end_ := 200,
         recurrence := some "recurring-1-a", updatedAt := 0, createdAt := 0 },
       { id := 2, calendarId := 0, title := "B", start := 50, end_ := 80,
         recurrence := some "recurring-1-a", updatedAt := 0, createdAt := 0 },
       { id := 3, calendarId := 0, title := "C", start := 150, end_ := 250,
         recurrence := some "recurring-2-b", updatedAt := 0, createdAt := 0 },
       { id := 4, calendarId := 0, title := "D", start := 300, end_ := 400,
         updatedAt := 0, createdAt := 0 }] }

theorem c10_deleteRecurringEvents_spec_witness :
    (deleteRecurringEvents "recurring-1-a" 100 c10db).1
      = Except.ok (c10db.events.filter
          (fun e => e.recurrence == some "recurring-1-a" && decide ((100 : Int) ≤ e.start))).length ∧
    (deleteRecurringEvents "recurring-1-a" 100 c10db).2
      = { c10db with events :=
            c10db.events.filter (fun e => !(e.recurrence == some "recurring-1-a" && decide ((100 : Int) ≤ e.start))) } :=
  c10_deleteRecurringEvents_spec "recurring-1-a" 100 c10db (by decide)

theorem memberMapLookup_some {members : List Member} {key : String} {i : String}
    (h : memberMapLookup members key = some i) :
    ∃ m ∈ members, jsToLower m.name = key ∧ m.id = i := by
  unfold memberMapLookup at h
  rcases Option.map_eq_some'.mp h with ⟨m, hfind, hid⟩
  refine ⟨m, ?_, ?_, hid⟩
  · exact List.mem_reverse.mp (List.mem_of_find?_eq_some hfind)
  · have := List.find?_some hfind
    exact eq_of_beq this

theorem memberMapLookup_none {members : List Member} {key : String} :
    memberMapLookup members key = none ↔ ∀ m ∈ members, jsToLower m.name ≠ key := by
  unfold memberMapLookup
  rw [Option.map_eq_none', List.find?_eq_none]
  constructor
  · intro h m hm
    have := h m (List.mem_reverse.mpr hm)
    simpa using this
  · intro h m hm
    simpa using h m (List.mem_reverse.mp hm)

theorem resolveMemberIds_core_nil (m0 : Member) (rest : List Member) (cu : Option String)
    (ams : Option (List String))
    (hc : (ams.getD []).filterMap
      (fun n => (memberMapLookup (m0 :: rest) (jsToLower n)).bind
        (fun x => if x = "" then none else some x)) = []) :
    resolveMemberIds (m0 :: rest) cu ams
      = match cu with
        | some c => if c = "" then [m0.id]
            else [(memberMapLookup (m0 :: rest) (jsToLower c)).getD m0.id]
        | none => [m0.id] := by
  simp only [resolveMemberIds, hc]

theorem resolveMemberIds_core_cons (m0 : Member) (rest : List Member) (cu : Option String)
    (ams : Option (List String)) (r : String) (rs : List String)
    (hc : (ams.getD []).filterMap
      (fun n => (memberMapLookup (m0 :: rest) (jsToLower n)).bind
        (fun x => if x = "" then none else some x)) = r :: rs) :
    resolveMemberIds (m0 :: rest) cu ams = r :: rs := by
  simp only [resolveMemberIds, hc]

def c7roster : List Member := [{ id := "a", name := "Alex" }, { id := "b", name := "" }]

/-- C7 counterexample: with the roster `[Alex ↦ a, "" ↦ b]` and the current
user name `""`, the current user's name matches roster member `b` under the
claim's exact case-insensitive comparison, so the claim requires `memberIds`
to contain the current chatting user `b`; but the source guards the fallback
with the truthiness test `currentName ? ... : members[0].id`, so the empty
name falls through to the first member and the result is `["a"]`. -/
theorem c7_counterexample :
    (∃ m ∈ c7roster, jsToLower m.name = jsToLower "" ∧ m.id = "b") ∧
    resolveMemberIds c7roster (some "") none = ["a"] ∧
    "b" ∉ resolveMemberIds c7roster (some "") none := by
  refine ⟨⟨{ id := "b", name := "" }, by decide, by decide, rfl⟩, by decide, by decide⟩

/-- C7 amended: with a non-empty roster, every assigned-member mention
contributes an id only through an exact case-insensitive name match (and a
mention matching no roster name contributes nothing); when no mention
resolves, the result is the current chatting user's id when the current
user's name is present, non-empty and matched, and the first roster
member's id when the current user's name is absent, empty, or unmatched;
hence the result is always non-empty and is exactly the list stored in the
proposal's `memberIds` field. -/
theorem c7_member_assignment (m0 : Member) (rest : List Member) (cu : Option String)
    (ams : Option (List String)) (core : List String)
    (hcore : core = (ams.getD []).filterMap
      (fun n => (memberMapLookup (m0 :: rest) (jsToLower n)).bind
        (fun x => if x = "" then none else some x))) :
    resolveMemberIds (m0 :: rest) cu ams ≠ [] ∧
    memberIdsOpt (resolveMemberIds (m0 :: rest) cu ams)
      = some (resolveMemberIds (m0 :: rest) cu ams) ∧
    (∀ i ∈ core, ∃ n ∈ ams.getD [], ∃ m ∈ m0 :: rest,
      jsToLower m.name = jsToLower n ∧ m.id = i) ∧
    (∀ n ∈ ams.getD [], (∀ m ∈ m0 :: rest, jsToLower m.name ≠ jsToLower n) →
      (memberMapLookup (m0 :: rest) (jsToLower n)).bind
        (fun x => if x = "" then none else some x) = none) ∧
    (core = [] → cu = none → resolveMemberIds (m0 :: rest) cu ams = [m0.id]) ∧
    (core = [] → cu = some "" → resolveMemberIds (m0 :: rest) cu ams = [m0.id]) ∧
    (core = [] → ∀ c, cu = some c → c ≠ "" →
      memberMapLookup (m0 :: rest) (jsToLower c) = none →
      resolveMemberIds (m0 :: rest) cu ams = [m0.id]) ∧
    (core = [] → ∀ c i, cu = some c → c ≠ "" →
      memberMapLookup (m0 :: rest) (jsToLower c) = some i →
      resolveMemberIds (m0 :: rest) cu ams = [i] ∧
      ∃ m ∈ m0 :: rest, jsToLower m.name = jsToLower c ∧ m.id = i) ∧
    (core ≠ [] → resolveMemberIds (m0 :: rest) cu ams = core) := by
  have hne : resolveMemberIds (m0 :: rest) cu ams ≠ [] := by
    rcases hc : (ams.getD []).filterMap
        (fun n => (memberMapLookup (m0 :: rest) (jsToLower n)).bind
          (fun x => if x = "" then none else some x)) with _ | ⟨r, rs⟩
    · rw [resolveMemberIds_core_nil m0 rest cu ams hc]
      rcases cu with _ | c
      · simp
      · dsimp only
        by_cases hcu : c = ""
        · rw [if_pos hcu]
          simp
        · rw [if_neg hcu]
          simp
    · rw [resolveMemberIds_core_cons m0 rest cu ams r rs hc]
      simp
  refine ⟨hne, ?_, ?_, ?_, ?_, ?_, ?_, ?_, ?_⟩
  · unfold memberIdsOpt
    rw [if_neg (by simpa using hne)]
  · intro i hi
    rw [hcore] at hi
    rcases List.mem_filterMap.mp hi with ⟨n, hn, hbind⟩
    rcases Option.bind_eq_some.mp hbind with ⟨x, hlook, hif⟩
    by_cases hx : x = ""
    · rw [if_pos hx] at hif
      cases hif
    · rw [if_neg hx] at hif
      cases hif
      rcases memberMapLookup_some hlook with ⟨m, hm, hname, hid⟩
      exact ⟨n, hn, m, hm, hname, hid⟩
  · intro n _ hno
    rw [memberMapLookup_none.mpr hno]
    rfl
  · intro hc hcu
    subst hcu
    rw [resolveMemberIds_core_nil m0 rest none ams (hcore ▸ hc)]
  · intro hc hcu
    subst hcu
    rw [resolveMemberIds_core_nil m0 rest (some "") ams (hcore ▸ hc)]
    simp
  · intro hc c hcu hne2 hlook
    subst hcu
    rw [resolveMemberIds_core_nil m0 rest (some c) ams (hcore ▸ hc)]
    dsimp only
    rw [if_neg hne2, hlook]
    rfl
  · intro hc c i hcu hne2 hlook
    subst hcu
    constructor
    · rw [resolveMemberIds_core_nil m0 rest (some c) ams (hcore ▸ hc)]
      dsimp only
      rw [if_neg hne2, hlook]
      rfl
    · exact memberMapLookup_some hlook
  · intro hc
    rcases hcs : core with _ | ⟨r, rs⟩
    · exact absurd hcs hc
    · rw [resolveMemberIds_core_cons m0 rest cu ams r rs (hcs ▸ hcore).symm]

theorem c7_member_assignment_witness :
    resolveMemberIds [{ id := "u1", name := "Jordan" }] (some "Jordan") none ≠ [] ∧
    memberIdsOpt (resolveMemberIds [{ id := "u1", name := "Jordan" }] (some "Jordan") none)
      = some (resolveMemberIds [{ id := "u1", name := "Jordan" }] (some "Jordan") none) ∧
    resolveMemberIds [{ id := "u1", name := "Jordan" }] (some "Jordan") none = ["u1"] := by
  have h := c7_member_assignment { id := "u1", name := "Jordan" } [] (some "Jordan") none [] (by decide)
  refine ⟨h.1, h.2.1, ?_⟩
  exact (h.2.2.2.2.2.2.2.1 rfl "Jordan" "u1" rfl (by decide) (by decide)).1

/-! ## Arithmetic facts about the date model -/

theorem dateUTC_add_days (y mi d o h mn : Int) :
    dateUTC y mi (d + o) h mn = dateUTC y mi d h mn + o * msPerDay := by
  simp only [dateUTC, daysFromCivil]
  ring

theorem getUTCDayOfMs_nonneg (t : Int) : 0 ≤ getUTCDayOfMs t :=
  Int.emod_nonneg _ (by norm_num)

theorem getUTCDayOfMs_lt (t : Int) : getUTCDayOfMs t < 7 :=
  Int.emod_lt_of_pos _ (by norm_num)

theorem wrap_offset_emod (n fd : Int) (hn0 : 0 ≤ n) (hn7 : n < 7) (hf0 : 0 ≤ fd)
    (hf7 : fd < 7) :
    (if n - fd < 0 then n - fd + 7 else n - fd) = (n - fd) % 7 := by
  split <;> omega

/-! ## Facts about the sort and the generated proposals -/

theorem startLeR_total_pair (a b : EventProposal) : startLeR a b ∨ startLeR b a := by
  unfold startLeR jsLeB
  rcases a.start with _ | x <;> rcases b.start with _ | y <;> simp
  exact le_total x y

theorem startLeR_trans_mid {a b c : EventProposal} (hb : b.start.isSome)
    (h1 : startLeR a b) (h2 : startLeR b c) : startLeR a c := by
  unfold startLeR jsLeB at *
  rcases hbs : b.start with _ | bv
  · rw [hbs] at hb
    cases hb
  · rw [hbs] at h1 h2
    rcases has : a.start with _ | x
    · rcases hcs : c.start with _ | y <;> rfl
    · rcases hcs : c.start with _ | y
      · rfl
      · rw [has] at h1
        rw [hcs] at h2
        simp only [decide_eq_true_eq] at h1 h2 ⊢
        exact le_trans h1 h2

theorem sorted_orderedInsert_startLe (a : EventProposal) :
    ∀ (l : List EventProposal), a.start.isSome → (∀ p ∈ l, p.start.isSome) →
      List.Sorted startLeR l →
      List.Sorted startLeR (List.orderedInsert startLeR a l) := by
  intro l
  induction l with
  | nil =>
    intro _ _ _
    simp [List.orderedInsert]
  | cons b t ih =>
    intro ha hl hs
    rw [List.orderedInsert]
    rcases List.sorted_cons.mp hs with ⟨hbt, hst⟩
    by_cases hab : startLeR a b
    · rw [if_pos hab]
      refine List.sorted_cons.mpr ⟨?_, hs⟩
      intro x hx
      rcases List.mem_cons.mp hx with rfl | hxt
      · exact hab
      · exact startLeR_trans_mid (hl b (List.mem_cons_self _ _)) hab (hbt x hxt)
    · rw [if_neg hab]
      refine List.sorted_cons.mpr ⟨?_, ?_⟩
      · intro x hx
        rcases (List.mem_orderedInsert startLeR).mp hx with hxa | hxt
        · rw [hxa]
          rcases startLeR_total_pair a b with h | h
          · exact absurd h hab
          · exact h
        · exact hbt x hxt
      · exact ih ha (fun p hp => hl p (List.mem_cons_of_mem _ hp)) hst

theorem sorted_sortByStart (l : List EventProposal) (h : ∀ p ∈ l, p.start.isSome) :
    List.Sorted startLeR (sortByStart l) := by
  induction l with
  | nil => simp [sortByStart, List.insertionSort]
  | cons a t ih =>
    rw [sortByStart, List.insertionSort]
    refine sorted_orderedInsert_startLe a _ (h a (List.mem_cons_self _ _)) ?_ ?_
    · intro p hp
      exact h p (List.mem_cons_of_mem _ ((List.perm_insertionSort startLeR t).mem_iff.mp hp))
    · exact ih (fun p hp => h p (List.mem_cons_of_mem _ hp))

theorem perm_sortByStart (l : List EventProposal) : (sortByStart l).Perm l :=
  List.perm_insertionSort startLeR l

theorem eq_of_perm_sorted_keyed :
    ∀ (l1 l2 : List EventProposal), l1.Perm l2 →
      List.Sorted startLeR l1 → List.Sorted startLeR l2 →
      (∀ p ∈ l1, p.start.isSome) →
      (∀ a ∈ l1, ∀ b ∈ l2, a.start = b.start → a = b) →
      l1 = l2 := by
  intro l1
  induction l1 with
  | nil =>
    intro l2 hp _ _ _ _
    exact hp.nil_eq
  | cons a t1 ih =>
    intro l2 hp hs1 hs2 hsome hkey
    cases l2 with
    | nil => exact absurd hp (by simp)
    | cons b t2 =>
      have ha2 : a ∈ b :: t2 := hp.mem_iff.mp (List.mem_cons_self _ _)
      have hb1 : b ∈ a :: t1 := hp.symm.mem_iff.mp (List.mem_cons_self _ _)
      have hab : a = b := by
        rcases List.mem_cons.mp ha2 with h | hat2
        · exact h
        · rcases List.mem_cons.mp hb1 with h | hbt1
          · exact h.symm
          · have h1 : startLeR a b := (List.sorted_cons.mp hs1).1 b hbt1
            have h2 : startLeR b a := (List.sorted_cons.mp hs2).1 a hat2
            have hsa := hsome a (List.mem_cons_self _ _)
            have hsb := hsome b hb1
            have hse : a.start = b.start := by
              unfold startLeR jsLeB at h1 h2
              rcases has : a.start with _ | x
              · rw [has] at hsa
                cases hsa
              · rcases hbs : b.start with _ | y
                · rw [hbs] at hsb
                  cases hsb
                · rw [has, hbs] at h1 h2
                  simp only [decide_eq_true_eq] at h1 h2
                  rw [le_antisymm h1 h2]
            exact hkey a (List.mem_cons_self _ _) b (List.mem_cons_self _ _) hse
      subst hab
      have htp : t1.Perm t2 := hp.cons_inv
      have := ih t2 htp (List.sorted_cons.mp hs1).2 (List.sorted_cons.mp hs2).2
        (fun p hp2 => hsome p (List.mem_cons_of_mem _ hp2))
        (fun x hx y hy hxy =>
          hkey x (List.mem_cons_of_mem _ hx) y (List.mem_cons_of_mem _ hy) hxy)
      rw [this]

theorem jsAdd_none_right (a : Option Int) : jsAdd a none = none := by
  cases a <;> rfl

theorem jsDateUTC_day_none (y mi h mn : Option Int) : jsDateUTC y mi none h mn = none := by
  rcases y with _ | y <;> rcases mi with _ | mi <;> rfl

theorem flatMap_congr_local {α β : Type} (L : List α) (f g : α → List β)
    (h : ∀ a ∈ L, f a = g a) : L.flatMap f = L.flatMap g := by
  induction L with
  | nil => rfl
  | cons a t ih =>
    rw [List.flatMap_cons, List.flatMap_cons, h a (List.mem_cons_self _ _),
      ih (fun x hx => h x (List.mem_cons_of_mem _ hx))]

theorem length_flatMap_map {α β γ : Type} (L : List α) (days : List β) (g : α → β → γ) :
    (L.flatMap (fun k => days.map (g k))).length = L.length * days.length := by
  induction L with
  | nil => simp
  | cons a t ih =>
    rw [List.flatMap_cons, List.length_append, List.length_map, ih, List.length_cons]
    ring

theorem flatMap_map_perm {α β γ : Type} (L : List α) (g : α → β → γ) (ds ds2 : List β)
    (h : ds.Perm ds2) :
    (L.flatMap (fun k => ds.map (g k))).Perm (L.flatMap (fun k => ds2.map (g k))) := by
  induction L with
  | nil => simp
  | cons a t ih =>
    rw [List.flatMap_cons, List.flatMap_cons]
    exact (h.map (g a)).append ih

/-- Closed form of the generator on non-`NaN` date components. -/
theorem expandGen_some (y m d : Int) (pa : ParsedArgs) (days : List Int) (weeks tz : Int)
    (mids : List String) :
    expandGen (some y) (some m) (some d) pa days weeks tz mids
      = (List.range weeks.toNat).flatMap (fun week =>
          days.map (fun dayNum =>
            mkProposal pa mids (some (dateUTC y (m - 1)
              (d + ((if dayNum - getUTCDayOfMs (dateUTC y (m - 1) d 0 0) < 0
                     then dayNum - getUTCDayOfMs (dateUTC y (m - 1) d 0 0) + 7
                     else dayNum - getUTCDayOfMs (dateUTC y (m - 1) d 0 0)) + (week : Int) * 7))
              pa.startHour pa.startMinute + tz * msPerMinute)))) := by
  unfold expandGen
  simp only [jsSub, jsDateUTC, Option.map_some', jsAdd]

theorem mem_expandGen_some (y m d : Int) (pa : ParsedArgs) (days : List Int) (weeks tz : Int)
    (mids : List String) (p : EventProposal)
    (hp : p ∈ expandGen (some y) (some m) (some d) pa days weeks tz mids) :
    ∃ s : Int, p = mkProposal pa mids (some s) := by
  rw [expandGen_some] at hp
  rcases List.mem_flatMap.mp hp with ⟨week, _, hpw⟩
  rcases List.mem_map.mp hpw with ⟨dayNum, _, hpd⟩
  exact ⟨_, hpd.symm⟩

theorem mem_expandGen_none (year month day : Option Int) (pa : ParsedArgs) (days : List Int)
    (weeks tz : Int) (mids : List String) (p : EventProposal)
    (hnone : jsDateUTC year (jsSub month (some 1)) day (some 0) (some 0) = none)
    (hp : p ∈ expandGen year month day pa days weeks tz mids) :
    p = mkProposal pa mids none := by
  unfold expandGen at hp
  simp only [hnone, Option.map_none', jsAdd_none_right, jsDateUTC_day_none] at hp
  rcases List.mem_flatMap.mp hp with ⟨week, _, hpw⟩
  rcases List.mem_map.mp hpw with ⟨dayNum, _, hpd⟩
  exact hpd.symm

/-- The generator rewritten the way the specification words it: the anchor
timestamp (anchor date stamped with the start time and the timezone
adjustment) plus the forward-wrapped weekday delta plus whole weeks, in
days. -/
theorem expandGen_some_canonical (y m d : Int) (pa : ParsedArgs) (days : List Int)
    (weeks tz : Int) (mids : List String)
    (hmem : ∀ n ∈ days, 0 ≤ n ∧ n < 7) :
    expandGen (some y) (some m) (some d) pa days weeks tz mids
      = (List.range weeks.toNat).flatMap (fun k =>
          days.map (fun n =>
            mkProposal pa mids (some (dateUTC y (m - 1) d pa.startHour pa.startMinute
              + tz * msPerMinute
              + ((n - getUTCDayOfMs (dateUTC y (m - 1) d 0 0)) % 7 + 7 * (k : Int)) * msPerDay)))) := by
  rw [expandGen_some]
  apply flatMap_congr_local
  intro k _
  apply List.map_congr_left
  intro n hn
  rw [dateUTC_add_days,
    wrap_offset_emod n (getUTCDayOfMs (dateUTC y (m - 1) d 0 0)) (hmem n hn).1 (hmem n hn).2
      (getUTCDayOfMs_nonneg _) (getUTCDayOfMs_lt _)]
  congr 2
  ring

theorem jsDateUTC_year_none (mi d h mn : Option Int) : jsDateUTC none mi d h mn = none := rfl

theorem jsDateUTC_month_none (y d h mn : Option Int) : jsDateUTC y none d h mn = none := by
  rcases y with _ | y <;> rfl

/-- C3: for every anchor date (year, month, day), weekday list inside 0..6,
week count ≥ 1, start clock time, duration and timezone offset, the
recurrence expansion yields exactly weekCount × |days| proposals, sorted
ascending by start; as a multiset there is exactly one proposal per pair
(week index k, weekday n), its start being the anchor date stamped with the
start time (shifted by the timezone offset) plus ((n − anchorWeekday) mod 7,
always ≥ 0) + 7k days, and every proposal's end is its start plus the
duration in minutes. -/
theorem c3_recurrence_expansion (y m d : Int) (pa : ParsedArgs) (ds : List Int)
    (w tz : Int) (mids : List String) (ps : List EventProposal)
    (_hds : ds ≠ []) (hmem : ∀ n ∈ ds, 0 ≤ n ∧ n < 7) (_hw : 1 ≤ w)
    (hps : ps = expandRecurring (some y) (some m) (some d) pa ds w tz mids) :
    ps.length = w.toNat * ds.length ∧
    List.Sorted startLeR ps ∧
    ps.Perm ((List.range w.toNat).flatMap (fun k =>
      ds.map (fun n =>
        mkProposal pa mids (some (dateUTC y (m - 1) d pa.startHour pa.startMinute
          + tz * msPerMinute
          + ((n - getUTCDayOfMs (dateUTC y (m - 1) d 0 0)) % 7 + 7 * (k : Int)) * msPerDay))))) ∧
    (∀ p ∈ ps, p.end_ = p.start.map (fun t => t + pa.durationMinutes * msPerMinute)) := by
  subst hps
  unfold expandRecurring
  have hcanon := expandGen_some_canonical y m d pa ds w tz mids hmem
  refine ⟨?_, ?_, ?_, ?_⟩
  · rw [(perm_sortByStart _).length_eq, hcanon, length_flatMap_map, List.length_range]
  · refine sorted_sortByStart _ (fun p hp => ?_)
    rcases mem_expandGen_some y m d pa ds w tz mids p hp with ⟨s, rfl⟩
    rfl
  · exact hcanon ▸ perm_sortByStart _
  · intro p hp
    have hpg := (perm_sortByStart _).mem_iff.mp hp
    rcases mem_expandGen_some y m d pa ds w tz mids p hpg with ⟨s, rfl⟩
    rfl

def paGym : ParsedArgs :=
  { title := "Gym", date := "2024-01-01", startHour := 9, startMinute := 0,
    durationMinutes := 60 }

theorem c3_recurrence_expansion_witness :
    (expandRecurring (some 2024) (some 1) (some 1) paGym [1, 3] 2 480 ["u1"]).length
      = (2 : Int).toNat * ([1, 3] : List Int).length ∧
    List.Sorted startLeR (expandRecurring (some 2024) (some 1) (some 1) paGym [1, 3] 2 480 ["u1"]) ∧
    (expandRecurring (some 2024) (some 1) (some 1) paGym [1, 3] 2 480 ["u1"]).Perm
      ((List.range (2 : Int).toNat).flatMap (fun k =>
        ([1, 3] : List Int).map (fun n =>
          mkProposal paGym ["u1"] (some (dateUTC 2024 (1 - 1) 1 paGym.startHour paGym.startMinute
            + 480 * msPerMinute
            + ((n - getUTCDayOfMs (dateUTC 2024 (1 - 1) 1 0 0)) % 7 + 7 * (k : Int)) * msPerDay))))) ∧
    (∀ p ∈ expandRecurring (some 2024) (some 1) (some 1) paGym [1, 3] 2 480 ["u1"],
      p.end_ = p.start.map (fun t => t + paGym.durationMinutes * msPerMinute)) :=
  c3_recurrence_expansion 2024 1 1 paGym [1, 3] 2 480 ["u1"] _
    (by decide) (by decide) (by decide) rfl

/-- C4: the recurrence expansion is order-independent in the weekday list —
permuted `recurringDays` inputs yield element-wise identical sorted
proposal lists — and deterministic: the expansion is a pure function of its
inputs, so calling it twice with identical inputs yields identical,
order-stable lists (the second conjunct, definitionally). -/
theorem c4_expansion_permutation_invariant (year month day : Option Int) (pa : ParsedArgs)
    (ds ds2 : List Int) (w tz : Int) (mids : List String)
    (hperm : ds.Perm ds2) :
    expandRecurring year month day pa ds w tz mids
      = expandRecurring year month day pa ds2 w tz mids ∧
    expandRecurring year month day pa ds w tz mids
      = expandRecurring year month day pa ds w tz mids := by
  refine ⟨?_, rfl⟩
  have hgperm : (expandGen year month day pa ds w tz mids).Perm
      (expandGen year month day pa ds2 w tz mids) := by
    unfold expandGen
    exact flatMap_map_perm _ _ _ _ hperm
  unfold expandRecurring
  rcases hbase : jsDateUTC year (jsSub month (some 1)) day (some 0) (some 0) with _ | base
  · have h1 : ∀ p ∈ expandGen year month day pa ds w tz mids,
        p = mkProposal pa mids none :=
      fun p hp => mem_expandGen_none year month day pa ds w tz mids p hbase hp
    have h2 : ∀ p ∈ expandGen year month day pa ds2 w tz mids,
        p = mkProposal pa mids none :=
      fun p hp => mem_expandGen_none year month day pa ds2 w tz mids p hbase hp
    have e1 : expandGen year month day pa ds w tz mids
        = List.replicate (expandGen year month day pa ds w tz mids).length
            (mkProposal pa mids none) :=
      List.eq_replicate_iff.mpr ⟨rfl, h1⟩
    have e2 : expandGen year month day pa ds2 w tz mids
        = List.replicate (expandGen year month day pa ds2 w tz mids).length
            (mkProposal pa mids none) :=
      List.eq_replicate_iff.mpr ⟨rfl, h2⟩
    rw [e1, e2, hgperm.length_eq]
  · have hsome : ∃ yv mv dv, year = some yv ∧ month = some mv ∧ day = some dv := by
      rcases year with _ | yv
      · rw [jsDateUTC_year_none] at hbase
        exact Option.noConfusion hbase
      · rcases month with _ | mv
        · have hs : jsSub (none : Option Int) (some 1) = none := rfl
          rw [hs, jsDateUTC_month_none] at hbase
          exact Option.noConfusion hbase
        · rcases day with _ | dv
          · rw [jsDateUTC_day_none] at hbase
            exact Option.noConfusion hbase
          · exact ⟨yv, mv, dv, rfl, rfl, rfl⟩
    rcases hsome with ⟨yv, mv, dv, rfl, rfl, rfl⟩
    apply eq_of_perm_sorted_keyed
    · exact (perm_sortByStart _).trans (hgperm.trans (perm_sortByStart _).symm)
    · refine sorted_sortByStart _ (fun p hp => ?_)
      rcases mem_expandGen_some yv mv dv pa ds w tz mids p hp with ⟨s, rfl⟩
      rfl
    · refine sorted_sortByStart _ (fun p hp => ?_)
      rcases mem_expandGen_some yv mv dv pa ds2 w tz mids p hp with ⟨s, rfl⟩
      rfl
    · intro p hp
      rcases mem_expandGen_some yv mv dv pa ds w tz mids p
        ((perm_sortByStart _).mem_iff.mp hp) with ⟨s, rfl⟩
      rfl
    · intro a ha b hb hse
      rcases mem_expandGen_some yv mv dv pa ds w tz mids a
        ((perm_sortByStart _).mem_iff.mp ha) with ⟨s1, rfl⟩
      rcases mem_expandGen_some yv mv dv pa ds2 w tz mids b
        ((perm_sortByStart _).mem_iff.mp hb) with ⟨s2, rfl⟩
      have : s1 = s2 := by
        have h := hse
        simp only [mkProposal, Option.some.injEq] at h
        exact h
      rw [this]

theorem c4_expansion_permutation_invariant_witness :
    expandRecurring (some 2024) (some 1) (some 1) paGym [5, 1] 2 480 ["u1"]
      = expandRecurring (some 2024) (some 1) (some 1) paGym [1, 5] 2 480 ["u1"] :=
  (c4_expansion_permutation_invariant (some 2024) (some 1) (some 1) paGym [5, 1] [1, 5]
    2 480 ["u1"] (by decide)).1

/-! ## The validity of returned proposals (claim C1) -/

/-- Validity required of a returned proposal: strictly ordered timestamps
(`end > start`, false for `NaN`) and a non-empty title. -/
def goodProposal (p : EventProposal) : Prop :=
  jsLtB p.start p.end_ = true ∧ 0 < p.title.length

/-- The remote outcome contains an accepted (parsed) `create_event`
function-call payload `pa`. -/
def FnCallOk (outcome : RemoteOutcome) (pa : ParsedArgs) : Prop :=
  ∃ resp, outcome = RemoteOutcome.returned resp ∧
    OutputItem.functionCall "create_event" (Except.ok pa) ∈ resp.output

/-- The payload conditions under which the validity claim holds: positive
duration, non-empty title, and a normalised date string whose three
components all parse as numbers (no `NaN`). -/
def acceptedPayloadOk (env : Env) (args : ProcessArgs) (pa : ParsedArgs) : Prop :=
  0 < pa.durationMinutes ∧ pa.title ≠ "" ∧
  ((parseDateParts ((inferRelativeDateFromMessage args.message
      (getUserLocalNow env.nowMs (args.timezoneOffset.getD 0))).getD pa.date)).1.isSome = true ∧
   (parseDateParts ((inferRelativeDateFromMessage args.message
      (getUserLocalNow env.nowMs (args.timezoneOffset.getD 0))).getD pa.date)).2.1.isSome = true ∧
   (parseDateParts ((inferRelativeDateFromMessage args.message
      (getUserLocalNow env.nowMs (args.timezoneOffset.getD 0))).getD pa.date)).2.2.isSome = true)

theorem string_pos_of_ne_empty {s : String} (h : s ≠ "") : 0 < s.length := by
  cases s with
  | mk data =>
    cases data with
    | nil => exact absurd rfl h
    | cons c cs => simp [String.length]

theorem mem_of_head?_eq {α : Type} {l : List α} {a : α} (h : l.head? = some a) : a ∈ l := by
  cases l with
  | nil => cases h
  | cons x xs =>
    rw [List.head?_cons] at h
    cases h
    exact List.mem_cons_self _ _

theorem goodProposal_expand (yv mv dv : Int) (pa : ParsedArgs) (days : List Int)
    (weeks tz : Int) (mids : List String) (hdur : 0 < pa.durationMinutes)
    (htitle : pa.title ≠ "") :
    ∀ p ∈ expandRecurring (some yv) (some mv) (some dv) pa days weeks tz mids,
      goodProposal p := by
  intro p hp
  rcases mem_expandGen_some yv mv dv pa days weeks tz mids p
    ((perm_sortByStart _).mem_iff.mp hp) with ⟨s, rfl⟩
  constructor
  · simp only [mkProposal, Option.map_some', jsLtB, decide_eq_true_eq]
    have hms : (0 : Int) < msPerMinute := by norm_num [msPerMinute]
    have := mul_pos hdur hms
    omega
  · exact string_pos_of_ne_empty htitle

/-- Every `create_event`/`create_events` result is the handled payload of
some accepted function call present in the remote response. -/
theorem processMessage_create_cases (env : Env) (args : ProcessArgs) (outcome : RemoteOutcome)
    (h : (processMessage env args outcome).type = "create_event" ∨
         (processMessage env args outcome).type = "create_events") :
    ∃ pa, FnCallOk outcome pa ∧
      processMessage env args outcome = handleParsed env args pa := by
  have hno : ¬(("message" : String) = "create_event" ∨
      ("message" : String) = "create_events") := by decide
  revert h
  rcases outcome with e | resp
  · unfold processMessage
    split
    · intro h
      exact absurd h hno
    · intro h
      exact absurd h hno
  · unfold processMessage
    split
    · intro h
      exact absurd h hno
    · dsimp only
      rcases hpo : processOutput env args resp.output with _ | r
      · dsimp only
        rcases ht : resp.output_text with _ | t
        · intro h
          exact absurd h hno
        · dsimp only
          by_cases hte : t = ""
          · rw [if_pos hte]
            intro h
            exact absurd h hno
          · rw [if_neg hte]
            intro h
            exact absurd h hno
      · rcases r with e | a
        · intro h
          exact absurd h hno
        · intro _
          rcases processOutput_ok env args resp.output a hpo with ⟨pa, hmem, he⟩
          subst he
          exact ⟨pa, ⟨resp, rfl, hmem⟩, rfl⟩

theorem goodProposal_mk_some (pa : ParsedArgs) (mids : List String) (s : Int)
    (hdur : 0 < pa.durationMinutes) (htitle : pa.title ≠ "") :
    goodProposal (mkProposal pa mids (some s)) := by
  constructor
  · simp only [mkProposal, Option.map_some', jsLtB, decide_eq_true_eq]
    have hms : (0 : Int) < msPerMinute := by norm_num [msPerMinute]
    have := mul_pos hdur hms
    omega
  · exact string_pos_of_ne_empty htitle

theorem handleParsed_good (env : Env) (args : ProcessArgs) (pa : ParsedArgs)
    (hdur : 0 < pa.durationMinutes) (htitle : pa.title ≠ "")
    (h1 : (parseDateParts ((inferRelativeDateFromMessage args.message
      (getUserLocalNow env.nowMs (args.timezoneOffset.getD 0))).getD pa.date)).1.isSome = true)
    (h2 : (parseDateParts ((inferRelativeDateFromMessage args.message
      (getUserLocalNow env.nowMs (args.timezoneOffset.getD 0))).getD pa.date)).2.1.isSome = true)
    (h3 : (parseDateParts ((inferRelativeDateFromMessage args.message
      (getUserLocalNow env.nowMs (args.timezoneOffset.getD 0))).getD pa.date)).2.2.isSome = true) :
    (∀ p, (handleParsed env args pa).proposal = some p → goodProposal p) ∧
    (∀ ps, (handleParsed env args pa).proposals = some ps → ∀ p ∈ ps, goodProposal p) := by
  simp only [handleParsed]
  rcases hpd : parseDateParts ((inferRelativeDateFromMessage args.message
      (getUserLocalNow env.nowMs (args.timezoneOffset.getD 0))).getD pa.date) with ⟨yo, mo, dom⟩
  rw [hpd] at h1 h2 h3
  rcases yo with _ | yv
  · exact Bool.noConfusion h1
  rcases mo with _ | mv
  · exact Bool.noConfusion h2
  rcases dom with _ | dv
  · exact Bool.noConfusion h3
  dsimp only
  by_cases hrec : (pa.recurringDays.getD []).length > 0
  · rw [if_pos hrec]
    constructor
    · intro p hp
      exact goodProposal_expand yv mv dv pa _ _ _ _ hdur htitle p (mem_of_head?_eq hp)
    · intro ps hps
      cases hps
      exact goodProposal_expand yv mv dv pa _ _ _ _ hdur htitle
  · rw [if_neg hrec]
    constructor
    · intro p hp
      cases hps : singleStartMs (some yv) (some mv) (some dv) pa (args.timezoneOffset.getD 0) with
      | none =>
        rw [show singleStartMs (some yv) (some mv) (some dv) pa (args.timezoneOffset.getD 0)
            = some (dateUTC yv (mv - 1) dv pa.startHour pa.startMinute
              + args.timezoneOffset.getD 0 * msPerMinute) from rfl] at hps
        cases hps
      | some s =>
        rw [show singleStartMs (some yv) (some mv) (some dv) pa (args.timezoneOffset.getD 0)
            = some (dateUTC yv (mv - 1) dv pa.startHour pa.startMinute
              + args.timezoneOffset.getD 0 * msPerMinute) from rfl] at hps
        cases hp
        exact goodProposal_mk_some pa _ _ hdur htitle
    · intro ps hps
      cases hps

/-- C1 amended: if every accepted `create_event` payload in the remote
outcome has a positive duration, a non-empty title, and a date that (after
relative-date normalisation) parses into three numeric components, then a
`create_event` or `create_events` result contains only proposals with
`end > start` and a non-empty title — in the `proposal` field and in every
element of `proposals`. -/
theorem c1_good_proposals (env : Env) (args : ProcessArgs) (outcome : RemoteOutcome)
    (hok : ∀ pa : ParsedArgs, FnCallOk outcome pa → acceptedPayloadOk env args pa) :
    ((processMessage env args outcome).type = "create_event" ∨
     (processMessage env args outcome).type = "create_events") →
    ((∀ p, (processMessage env args outcome).proposal = some p → goodProposal p) ∧
     (∀ ps, (processMessage env args outcome).proposals = some ps →
        ∀ p ∈ ps, goodProposal p)) := by
  intro htype
  rcases processMessage_create_cases env args outcome htype with ⟨pa, hfn, heq⟩
  have hok2 := hok pa hfn
  rw [heq]
  exact handleParsed_good env args pa hok2.1 hok2.2.1 hok2.2.2.1 hok2.2.2.2.1 hok2.2.2.2.2

def c1envA : Env := { apiKey := some "k", nowMs := 0, ridNowMs := 0, randSuffix := "r" }

def c1args : ProcessArgs := { message := "book dentist" }

def c1paZeroDur : ParsedArgs :=
  { title := "Dentist", date := "2024-03-04", startHour := 14, startMinute := 0,
    durationMinutes := 0 }

def c1paEmptyTitle : ParsedArgs :=
  { title := "", date := "2024-03-04", startHour := 14, startMinute := 0,
    durationMinutes := 30 }

def c1paBadDate : ParsedArgs :=
  { title := "Dentist", date := "soon", startHour := 14, startMinute := 0,
    durationMinutes := 30 }

def c1out (pa : ParsedArgs) : RemoteOutcome :=
  RemoteOutcome.returned { output := [OutputItem.functionCall "create_event" (Except.ok pa)] }

/-- C1 counterexample: the handler performs no validation of an accepted
extractor payload.  A zero duration yields `end = start` (so `end > start`
is false), an empty title yields a title of length 0, and an unparsable
date string yields `NaN` timestamps (`end > start` again false) — each
inside a returned result of type `create_event`. -/
theorem c1_counterexample :
    (processMessage c1envA c1args (c1out c1paZeroDur)).type = "create_event" ∧
    ((processMessage c1envA c1args (c1out c1paZeroDur)).proposal.map
      (fun p => jsLtB p.start p.end_)) = some false ∧
    (processMessage c1envA c1args (c1out c1paEmptyTitle)).type = "create_event" ∧
    ((processMessage c1envA c1args (c1out c1paEmptyTitle)).proposal.map
      (fun p => p.title.length)) = some 0 ∧
    (processMessage c1envA c1args (c1out c1paBadDate)).type = "create_event" ∧
    ((processMessage c1envA c1args (c1out c1paBadDate)).proposal.map
      (fun p => p.start)) = some none := by
  refine ⟨by decide, by decide, by decide, by decide, by decide, by decide⟩

def c1paGood : ParsedArgs :=
  { title := "Coffee", date := "2024-03-04", startHour := 15, startMinute := 0,
    durationMinutes := 30 }

theorem c1_good_proposals_witness :
    ∃ p, (processMessage c1envA c1args (c1out c1paGood)).proposal = some p ∧
      goodProposal p := by
  have hok : ∀ pa : ParsedArgs, FnCallOk (c1out c1paGood) pa →
      acceptedPayloadOk c1envA c1args pa := by
    intro pa hpa
    rcases hpa with ⟨resp, hresp, hmem⟩
    have hro : RemoteOutcome.returned
        ({ output := [OutputItem.functionCall "create_event" (Except.ok c1paGood)] }
          : RemoteResponse) = RemoteOutcome.returned resp := hresp
    cases hro
    simp only [List.mem_singleton, OutputItem.functionCall.injEq, Except.ok.injEq] at hmem
    rw [hmem.2]
    exact ⟨by decide, by decide, by decide, by decide, by decide⟩
  have h := c1_good_proposals c1envA c1args (c1out c1paGood) hok (Or.inl (by decide))
  rcases hp : (processMessage c1envA c1args (c1out c1paGood)).proposal with _ | p
  · exact absurd hp (by decide)
  · exact ⟨p, rfl, h.1 p hp⟩
